import Mathlib

/-!
Verification of the MoveAccounts migration utility.

The repository consists of `load_accounts_to_database.js` (a procedural
CSV-to-PostgreSQL loader) and `load_accounts.sql` (a declarative SQL-only
variant of the same transform).  This file gives a shallow embedding of
the extraction and loading logic of both variants and proves properties
about them.  Strings are modelled as Lean `String`/`List Char`; bytes as
`Nat` (values < 256); JavaScript `NaN` results of `parseInt` as `none`;
SQL errors as `Except.error ()`.
-/

namespace MoveAccounts

/-- JavaScript whitespace (the set recognised by `String.prototype.trim`),
by code point: TAB, LF, VT, FF, CR, SP, NBSP, OGHAM SP, U+2000–U+200A,
LS, PS, NNBSP, MMSP, IDEOGRAPHIC SP, ZWNBSP. -/
def jsWs (c : Char) : Bool :=
  decide (c.toNat = 9 ∨ c.toNat = 10 ∨ c.toNat = 11 ∨ c.toNat = 12 ∨ c.toNat = 13 ∨
    c.toNat = 32 ∨ c.toNat = 160 ∨ c.toNat = 0x1680 ∨
    (0x2000 ≤ c.toNat ∧ c.toNat ≤ 0x200A) ∨
    c.toNat = 0x2028 ∨ c.toNat = 0x2029 ∨ c.toNat = 0x202F ∨ c.toNat = 0x205F ∨
    c.toNat = 0x3000 ∨ c.toNat = 0xFEFF)

/-- JavaScript `String.prototype.trim`: remove whitespace from both ends. -/
def jsTrim (l : List Char) : List Char :=
  ((l.dropWhile jsWs).reverse.dropWhile jsWs).reverse

/-- Value of a hexadecimal digit character (`0-9`, `a-f`, `A-F`). -/
def hexVal (c : Char) : Option Nat :=
  if 48 ≤ c.toNat ∧ c.toNat ≤ 57 then some (c.toNat - 48)
  else if 97 ≤ c.toNat ∧ c.toNat ≤ 102 then some (c.toNat - 87)
  else if 65 ≤ c.toNat ∧ c.toNat ≤ 70 then some (c.toNat - 55)
  else none

/-- Value of a decimal digit character. -/
def digitVal (c : Char) : Option Nat :=
  if 48 ≤ c.toNat ∧ c.toNat ≤ 57 then some (c.toNat - 48) else none

/-- Node.js `Buffer.from(s, 'hex')` (used at
`load_accounts_to_database.js:65`): decode consecutive pairs of hex
digits; decoding stops silently at the first character pair containing a
non-hex character (or at a dangling odd character).  It never throws. -/
def nodeHexDecode : List Char → List Nat
  | c1 :: c2 :: rest =>
    match hexVal c1, hexVal c2 with
    | some h, some lo => (16 * h + lo) :: nodeHexDecode rest
    | _, _ => []
  | _ => []

/-- Decoder state for incremental UTF-8 decoding (WHATWG algorithm):
accumulated code point, continuation bytes still needed, and the lower
and upper bounds for the next continuation byte. -/
structure U8 where
  cp : Nat
  needed : Nat
  lower : Nat
  upper : Nat
deriving DecidableEq

/-- Initial UTF-8 decoder state. -/
def u8init : U8 := ⟨0, 0, 0x80, 0xBF⟩

/-- Handle one byte in the initial state: ASCII is emitted directly,
lead bytes set up a multi-byte sequence, and invalid lead bytes emit
U+FFFD (the replacement character). -/
def u8start (b : Nat) : U8 × List Char :=
  if b ≤ 0x7F then (u8init, [Char.ofNat b])
  else if 0xC2 ≤ b ∧ b ≤ 0xDF then (⟨b - 0xC0, 1, 0x80, 0xBF⟩, [])
  else if 0xE0 ≤ b ∧ b ≤ 0xEF then
    (⟨b - 0xE0, 2, if b = 0xE0 then 0xA0 else 0x80, if b = 0xED then 0x9F else 0xBF⟩, [])
  else if 0xF0 ≤ b ∧ b ≤ 0xF4 then
    (⟨b - 0xF0, 3, if b = 0xF0 then 0x90 else 0x80, if b = 0xF4 then 0x8F else 0xBF⟩, [])
  else (u8init, ['�'])

/-- One step of the WHATWG UTF-8 decoder: an out-of-range continuation
byte emits U+FFFD and reprocesses the byte from the initial state. -/
def u8step (st : U8) (b : Nat) : U8 × List Char :=
  if st.needed = 0 then u8start b
  else if st.lower ≤ b ∧ b ≤ st.upper then
    let cp := st.cp * 64 + (b - 0x80)
    if st.needed = 1 then (u8init, [Char.ofNat cp])
    else (⟨cp, st.needed - 1, 0x80, 0xBF⟩, [])
  else
    let p := u8start b
    (p.1, '�' :: p.2)

/-- Run the UTF-8 decoder over a byte list; a truncated trailing
sequence emits one U+FFFD. -/
def utf8DecodeLoop : U8 → List Nat → List Char
  | st, [] => if st.needed = 0 then [] else ['�']
  | st, b :: bs =>
    let p := u8step st b
    p.2 ++ utf8DecodeLoop p.1 bs

/-- Node.js `buffer.toString('utf8')` (used at
`load_accounts_to_database.js:66`): lossy UTF-8 decoding with U+FFFD
replacement for invalid sequences.  It never throws. -/
def utf8Decode (bs : List Nat) : List Char := utf8DecodeLoop u8init bs

/-- Accumulate digit values (given a digit-reading function and base)
over the longest prefix of digits, JavaScript-`parseInt` style. -/
def digitsValGo (base : Nat) (f : Char → Option Nat) (acc : Nat) : List Char → Nat
  | [] => acc
  | c :: cs =>
    match f c with
    | some d => digitsValGo base f (acc * base + d) cs
    | none => acc

/-- Numeric value of the longest digit prefix, or `none` when the list
does not start with a digit. -/
def parseRadix (base : Nat) (f : Char → Option Nat) : List Char → Option Nat
  | [] => none
  | c :: cs =>
    match f c with
    | some d => some (digitsValGo base f d cs)
    | none => none

/-- JavaScript `parseInt(s)` with no explicit radix (used at
`load_accounts_to_database.js:71` and `:130`): skip leading whitespace,
read an optional sign, use radix 16 when a `0x`/`0X` prefix follows,
otherwise radix 10, and parse the longest digit prefix.  `none` models
the `NaN` result.  The model computes the exact integer value (JavaScript
returns an IEEE double, exact below 2^53). -/
def jsParseInt (l : List Char) : Option Int :=
  let l1 := l.dropWhile jsWs
  let sign : Int := if l1.head? = some '-' then -1 else 1
  let l2 := if l1.head? = some '-' ∨ l1.head? = some '+' then l1.tail else l1
  if l2.head? = some '0' ∧ (l2.tail.head? = some 'x' ∨ l2.tail.head? = some 'X') then
    (parseRadix 16 hexVal l2.tail.tail).map (fun n => sign * (n : Int))
  else
    (parseRadix 10 digitVal l2).map (fun n => sign * (n : Int))

/-- Split a character list at every character satisfying `p`,
keeping empty fragments (so the result always has one more fragment
than there are separator occurrences). -/
def splitP (p : Char → Bool) : List Char → List (List Char)
  | [] => [[]]
  | c :: cs =>
    match splitP p cs with
    | [] => [[]]
    | g :: gs => if p c then [] :: g :: gs else (c :: g) :: gs

/-- JavaScript `value.split(d)` for a single-character separator:
split at every occurrence of `d`, keeping empty fragments. -/
def splitCh (d : Char) (l : List Char) : List (List Char) :=
  splitP (fun c => c == d) l

/-- The fixed delimiter set of `extractDeviceKitIds`
(`load_accounts_to_database.js:38`). -/
def delimiters : List Char := [',', ';', '|', '\n', '\t']

/-- The cascading split of `extractDeviceKitIds`
(`load_accounts_to_database.js:39-48`): start from the trimmed field and
successively split every fragment on each delimiter. -/
def splitValues (l : List Char) : List (List Char) :=
  delimiters.foldl (fun vals d => vals.flatMap (fun v => splitCh d v)) [jsTrim l]

/-- The loop body of `extractDeviceKitIds` for one candidate token
(`load_accounts_to_database.js:52-80`): trim, skip empty tokens and
tokens starting with `+`, hex-decode, UTF-8-decode, split on `.`, and
parse the second part as an integer; `none` when nothing is extracted.
(The `try`/`catch` of the source is dead: neither `Buffer.from(s,'hex')`
nor `buffer.toString('utf8')` throws.) -/
def extractFromToken (singleValue : List Char) : Option Int :=
  let t := jsTrim singleValue
  if t = [] then none
  else if t.head? = some '+' then none
  else
    match splitCh '.' (utf8Decode (nodeHexDecode t)) with
    | _ :: p1 :: _ => jsParseInt p1
    | _ => none

/-- `extractDeviceKitIds` (`load_accounts_to_database.js:32-83`): `none`
models a `null`/`undefined` argument.  A falsy argument yields `[]`;
otherwise the field is cascade-split into tokens and each token
contributes at most one integer, in order (the source pushes each
successful parse onto the result array, i.e. a `filterMap`). -/
def extractDeviceKitIds (featureValue : Option String) : List Int :=
  match featureValue with
  | none => []
  | some s => if s = "" then [] else (splitValues s.data).filterMap extractFromToken

/-- The token list a feature value is cascade-split into (empty for a
falsy argument). -/
def tokensOf (featureValue : Option String) : List (List Char) :=
  match featureValue with
  | none => []
  | some s => if s = "" then [] else splitValues s.data

/-! ## SQL variant (`load_accounts.sql`) -/

/-- Whitespace skipped by PostgreSQL's `decode(..., 'hex')` between hex
digits: space, newline, tab, carriage return. -/
def sqlHexWs (c : Char) : Bool :=
  decide (c.toNat = 32 ∨ c.toNat = 10 ∨ c.toNat = 9 ∨ c.toNat = 13)

/-- Whitespace accepted by PostgreSQL around an integer literal in a
text-to-`integer` cast: the C `isspace` set. -/
def sqlIntWs (c : Char) : Bool :=
  decide (c.toNat = 32 ∨ c.toNat = 9 ∨ c.toNat = 10 ∨ c.toNat = 11 ∨
    c.toNat = 12 ∨ c.toNat = 13)

/-- Strict pairwise hex decoding: errors on a non-hex character or an
odd number of digits. -/
def sqlHexPairs : List Char → Except Unit (List Nat)
  | [] => Except.ok []
  | [_] => Except.error ()
  | c1 :: c2 :: rest =>
    match hexVal c1, hexVal c2, sqlHexPairs rest with
    | some h, some lo, Except.ok bs => Except.ok ((16 * h + lo) :: bs)
    | _, _, _ => Except.error ()

/-- PostgreSQL `DECODE(s, 'hex')` (`load_accounts.sql:26`): whitespace
between digits is ignored; any other non-hex character, or an odd digit
count, raises an error. -/
def sqlHexDecode (l : List Char) : Except Unit (List Nat) :=
  sqlHexPairs (l.filter (fun c => !sqlHexWs c))

/-- Is `b` a UTF-8 continuation byte (`0x80`–`0xBF`)? -/
def u8cont (b : Nat) : Bool := decide (0x80 ≤ b ∧ b ≤ 0xBF)

/-- RFC 3629 well-formedness of a byte list as UTF-8. -/
def utf8Valid : List Nat → Bool
  | [] => true
  | b :: bs =>
    if b ≤ 0x7F then utf8Valid bs
    else if 0xC2 ≤ b ∧ b ≤ 0xDF then
      match bs with
      | b2 :: rest => u8cont b2 && utf8Valid rest
      | [] => false
    else if 0xE0 ≤ b ∧ b ≤ 0xEF then
      match bs with
      | b2 :: b3 :: rest =>
        (if b = 0xE0 then decide (0xA0 ≤ b2 ∧ b2 ≤ 0xBF)
         else if b = 0xED then decide (0x80 ≤ b2 ∧ b2 ≤ 0x9F)
         else u8cont b2) && u8cont b3 && utf8Valid rest
      | _ => false
    else if 0xF0 ≤ b ∧ b ≤ 0xF4 then
      match bs with
      | b2 :: b3 :: b4 :: rest =>
        (if b = 0xF0 then decide (0x90 ≤ b2 ∧ b2 ≤ 0xBF)
         else if b = 0xF4 then decide (0x80 ≤ b2 ∧ b2 ≤ 0x8F)
         else u8cont b2) && u8cont b3 && u8cont b4 && utf8Valid rest
      | _ => false
    else false

/-- PostgreSQL `CONVERT_FROM(bytes, 'UTF8')` (`load_accounts.sql:26`):
errors on malformed UTF-8 and on an embedded NUL byte; on success the
text is the (unique) UTF-8 decoding, computed with the shared decoder. -/
def sqlConvertFrom (bs : List Nat) : Except Unit (List Char) :=
  if utf8Valid bs = true ∧ ∀ b ∈ bs, b ≠ 0 then Except.ok (utf8Decode bs)
  else Except.error ()

/-- PostgreSQL `SPLIT_PART(s, d, n)` (`load_accounts.sql:26`): the `n`-th
(1-based) field after splitting on `d`, or the empty string when there
are fewer fields. -/
def sqlSplitPart (l : List Char) (d : Char) (n : Nat) : List Char :=
  ((splitCh d l).get? (n - 1)).getD []

/-- PostgreSQL text-to-`integer` cast (`::INTEGER`,
`load_accounts.sql:26`): optional surrounding whitespace, optional sign,
one or more decimal digits, range-checked against `int4`; anything else
raises an error. -/
def sqlCastInt (l : List Char) : Except Unit Int :=
  let l1 := l.dropWhile sqlIntWs
  let sign : Int := if l1.head? = some '-' then -1 else 1
  let l2 := if l1.head? = some '-' ∨ l1.head? = some '+' then l1.tail else l1
  let digits := l2.takeWhile (fun c => (digitVal c).isSome)
  let rest := l2.dropWhile (fun c => (digitVal c).isSome)
  if digits = [] then Except.error ()
  else if !rest.all sqlIntWs then Except.error ()
  else
    let v : Int := sign * (digitsValGo 10 digitVal 0 digits : Int)
    if -(2 ^ 31) ≤ v ∧ v ≤ 2 ^ 31 - 1 then Except.ok v else Except.error ()

/-- The `extensions` CASE expression of the SQL variant
(`load_accounts.sql:21-27`): `NULL` input, empty input, or input
matching `^\+` yields `NULL`; otherwise decode hex, convert to UTF-8,
take the second `.`-field and cast it to an integer, any failure being a
(fatal) SQL error. -/
def sqlExtensions : Option String → Except Unit (Option Int)
  | none => Except.ok none
  | some s =>
    if s = "" then Except.ok none
    else if s.data.head? = some '+' then Except.ok none
    else do
      let bytes ← sqlHexDecode s.data
      let text ← sqlConvertFrom bytes
      let n ← sqlCastInt (sqlSplitPart text '.' 2)
      return some n

example : sqlExtensions (some "48656c6c6f2e343432") = Except.ok (some 442) := rfl
example : sqlExtensions (some "7a") = Except.error () := rfl
example : sqlExtensions (some "612e35zz") = Except.error () := rfl
example : sqlExtensions (some "+4865") = Except.ok none := rfl
example : sqlExtensions none = Except.ok none := rfl

/-! ## Loader (`load_accounts_to_database.js`) -/

/-- One parsed CSV row as `csv-parser` hands it to the `data` handler
(`load_accounts_to_database.js:127`): each recognised column is a string,
or absent (`undefined`, modelled as `none`). -/
structure CsvRow where
  account_id : Option String
  emails : Option String
  phone_numbers : Option String
  extensions : Option String
deriving DecidableEq

/-- The record built per CSV row (`load_accounts_to_database.js:129-135`):
`account_id` is `parseInt` of the source value (`none` models `NaN`),
the text fields default to the empty string, `created_by` is fixed. -/
structure ProcessedRow where
  account_id : Option Int
  emails : String
  phone_numbers : String
  extensions : String
  created_by : String
deriving DecidableEq

/-- The per-row mapping of `loadCsvData`
(`load_accounts_to_database.js:129-135`): `parseInt(row.account_id)`
(where an absent column gives `NaN`), `row.emails || ''`,
`row.phone_numbers || ''`, `row.extensions || ''` copied verbatim, and
the constant `'By system'`. -/
def processRow (row : CsvRow) : ProcessedRow :=
  { account_id :=
      match row.account_id with
      | some s => jsParseInt s.data
      | none => none
    emails := row.emails.getD ""
    phone_numbers := row.phone_numbers.getD ""
    extensions := row.extensions.getD ""
    created_by := "By system" }

/-- `loadCsvData` (`load_accounts_to_database.js:119-148`): every parsed
CSV row is mapped by `processRow` and pushed onto the record list; no
row is ever rejected by this stage. -/
def loadCsvData (rows : List CsvRow) : List ProcessedRow :=
  rows.map processRow

/-- The parameter tuple bound to the `INSERT` statement for one record
(`load_accounts_to_database.js:181-187`): `$1`–`$5` in order. -/
def jsInsertParams (r : ProcessedRow) : Option Int × String × String × String × String :=
  (r.account_id, r.emails, r.phone_numbers, r.extensions, r.created_by)

/-- One row of `customer.esac_account_contacts` as written by the JS
loader: the key and the bound field values, plus the server-assigned
`updated_at` timestamp (modelled as a `Nat`). -/
structure TargetRow where
  account_id : Option Int
  emails : String
  phone_numbers : String
  extensions : String
  created_by : String
  updated_at : Nat
deriving DecidableEq

/-- The target-row image of a record written at time `now`. -/
def targetRowOf (r : ProcessedRow) (now : Nat) : TargetRow :=
  ⟨r.account_id, r.emails, r.phone_numbers, r.extensions, r.created_by, now⟩

/-- The upsert contract of the `INSERT ... ON CONFLICT (account_id) DO
UPDATE` statement (`load_accounts_to_database.js:161-172` and
`load_accounts.sql:32-38`): when a row with the same key exists, all its
non-key fields and `updated_at` are rewritten; otherwise a new row is
appended. -/
def upsert (db : List TargetRow) (r : ProcessedRow) (now : Nat) : List TargetRow :=
  if db.any (fun tr => tr.account_id = r.account_id) then
    db.map (fun tr => if tr.account_id = r.account_id then targetRowOf r now else tr)
  else db ++ [targetRowOf r now]

/-- The per-record loop of `insertDataToDatabase`
(`load_accounts_to_database.js:179-193`): each record's write either
fails (per the storage oracle `fails`), which is caught and counted,
or succeeds, upserting the row and counting a success.  State is
(storage contents, successCount, errorCount). -/
def insertRun (fails : ProcessedRow → Bool) (now : Nat) :
    List TargetRow × Nat × Nat → List ProcessedRow → List TargetRow × Nat × Nat
  | st, [] => st
  | (db, s, e), r :: rs =>
    if fails r then insertRun fails now (db, s, e + 1) rs
    else insertRun fails now (upsert db r now, s + 1, e) rs

/-- `insertDataToDatabase` (`load_accounts_to_database.js:153-205`),
per-row mode: process every record inside one transaction, catching and
counting per-record failures, and commit the accumulated state at the
end.  Storage-level failure of an individual statement is modelled by
the oracle `fails`; statement failures are treated as independent (the
enclosing transaction still commits, as the source assumes). -/
def insertDataToDatabase (fails : ProcessedRow → Bool) (db0 : List TargetRow)
    (records : List ProcessedRow) (now : Nat) : List TargetRow × Nat × Nat :=
  insertRun fails now (db0, 0, 0) records

/-- `batchInsertDataToDatabase` (`load_accounts_to_database.js:210-258`):
all records go into one multi-row `INSERT` inside one transaction; if
any record's write fails the whole statement errors and the transaction
is rolled back, otherwise every record is upserted in order. -/
def batchInsertDataToDatabase (fails : ProcessedRow → Bool) (db0 : List TargetRow)
    (records : List ProcessedRow) (now : Nat) : Except Unit (List TargetRow) :=
  if records.any fails then Except.error ()
  else Except.ok (records.foldl (fun db r => upsert db r now) db0)

/-- The storage contents after a batch-mode run: the new contents on
commit, the unchanged prior contents on rollback. -/
def batchFinalDb (fails : ProcessedRow → Bool) (db0 : List TargetRow)
    (records : List ProcessedRow) (now : Nat) : List TargetRow :=
  match batchInsertDataToDatabase fails db0 records now with
  | Except.ok db => db
  | Except.error _ => db0

/-- The row set produced by the SQL variant's `INSERT ... SELECT` for one
source row (`load_accounts.sql:17-30`): the decoded integer (or `NULL`)
goes into `extensions`. -/
structure SqlTargetValues where
  account_id : Int
  extensions : Option Int
  emails : Option String
  phone_numbers : Option String
  created_by : String
deriving DecidableEq

/-- The SELECT-list mapping of the SQL variant (`load_accounts.sql:18-30`):
`extensions` is the value of the CASE expression; any SQL error in it
aborts the whole statement. -/
def sqlSelectRow (aid : Int) (fv emails phones : Option String) :
    Except Unit SqlTargetValues :=
  (sqlExtensions fv).map (fun e => ⟨aid, e, emails, phones, "By system"⟩)

example :
    processRow ⟨some "abc", none, none, some "48656c6c6f2e343432"⟩ =
      ⟨none, "", "", "48656c6c6f2e343432", "By system"⟩ := by decide

/-! ## Supporting lemmas -/

theorem hexVal_isSome_ranges {c : Char} (h : (hexVal c).isSome = true) :
    (48 ≤ c.toNat ∧ c.toNat ≤ 57) ∨ (97 ≤ c.toNat ∧ c.toNat ≤ 102) ∨
      (65 ≤ c.toNat ∧ c.toNat ≤ 70) := by
  unfold hexVal at h
  split at h
  · exact Or.inl (by assumption)
  · split at h
    · exact Or.inr (Or.inl (by assumption))
    · split at h
      · exact Or.inr (Or.inr (by assumption))
      · simp at h

theorem digitVal_isSome_range {c : Char} (h : (digitVal c).isSome = true) :
    48 ≤ c.toNat ∧ c.toNat ≤ 57 := by
  unfold digitVal at h
  split at h
  · assumption
  · simp at h

theorem hexVal_isSome_of_digit {c : Char} (h : (digitVal c).isSome = true) :
    (hexVal c).isSome = true := by
  rcases digitVal_isSome_range h with ⟨h1, h2⟩
  unfold hexVal
  rw [if_pos ⟨h1, h2⟩]
  rfl

theorem jsWs_eq_false_of_hex {c : Char} (h : (hexVal c).isSome = true) :
    jsWs c = false := by
  have hr := hexVal_isSome_ranges h
  simp only [jsWs, decide_eq_false_iff_not]
  omega

theorem sqlHexWs_eq_false_of_hex {c : Char} (h : (hexVal c).isSome = true) :
    sqlHexWs c = false := by
  have hr := hexVal_isSome_ranges h
  simp only [sqlHexWs, decide_eq_false_iff_not]
  omega

theorem sqlIntWs_eq_false_of_digit {c : Char} (h : (digitVal c).isSome = true) :
    sqlIntWs c = false := by
  have hr := digitVal_isSome_range h
  simp only [sqlIntWs, decide_eq_false_iff_not]
  omega

theorem hex_ne_of_isSome {c : Char} (h : (hexVal c).isSome = true) {d : Char}
    (hd : hexVal d = none) : c ≠ d := by
  intro e
  rw [e, hd] at h
  simp at h

theorem digit_ne_of_isSome {c : Char} (h : (digitVal c).isSome = true) {d : Char}
    (hd : digitVal d = none) : c ≠ d := by
  intro e
  rw [e, hd] at h
  simp at h

theorem dropWhile_eq_self_of_head {p : Char → Bool} {l : List Char} {c : Char}
    (h : l.head? = some c) (hc : p c = false) : l.dropWhile p = l := by
  cases l with
  | nil => rfl
  | cons a as =>
    simp only [List.head?_cons, Option.some.injEq] at h
    rw [List.dropWhile_cons, h, hc]
    simp

theorem jsTrim_nil : jsTrim [] = [] := rfl

theorem jsTrim_eq_self_of_ends {l : List Char} {c c' : Char}
    (h1 : l.head? = some c) (hc : jsWs c = false)
    (h2 : l.getLast? = some c') (hc' : jsWs c' = false) : jsTrim l = l := by
  unfold jsTrim
  rw [dropWhile_eq_self_of_head h1 hc]
  rw [dropWhile_eq_self_of_head (by rw [List.head?_reverse]; exact h2) hc']
  exact List.reverse_reverse l

theorem jsTrim_eq_self_of_forall {l : List Char}
    (h : ∀ c ∈ l, jsWs c = false) : jsTrim l = l := by
  cases hl : l.head? with
  | none =>
    rw [List.head?_eq_none_iff] at hl
    rw [hl]; rfl
  | some c =>
    have hcl : c ∈ l := List.mem_of_mem_head? (by rw [hl]; rfl)
    cases hl' : l.getLast? with
    | none =>
      rw [List.getLast?_eq_none_iff] at hl'
      rw [hl']; rfl
    | some c' =>
      exact jsTrim_eq_self_of_ends hl (h c hcl)
        hl' (h c' (List.mem_of_mem_getLast? (by rw [hl']; rfl)))

theorem splitP_cons_eq {p : Char → Bool} {c : Char} {cs g : List Char}
    {gs : List (List Char)} (hs : splitP p cs = g :: gs) :
    splitP p (c :: cs) = if p c then [] :: g :: gs else (c :: g) :: gs := by
  rw [splitP, hs]

theorem splitP_exists_cons (p : Char → Bool) (l : List Char) :
    ∃ g gs, splitP p l = g :: gs := by
  induction l with
  | nil => exact ⟨[], [], rfl⟩
  | cons c cs ih =>
    obtain ⟨g, gs, hs⟩ := ih
    rw [splitP_cons_eq hs]
    by_cases hp : p c = true
    · exact ⟨[], g :: gs, by rw [if_pos hp]⟩
    · exact ⟨c :: g, gs, by rw [if_neg hp]⟩

theorem splitP_ne_nil (p : Char → Bool) (l : List Char) : splitP p l ≠ [] := by
  obtain ⟨g, gs, hs⟩ := splitP_exists_cons p l
  simp [hs]

theorem splitP_eq_single {p : Char → Bool} {l : List Char}
    (h : ∀ c ∈ l, p c = false) : splitP p l = [l] := by
  induction l with
  | nil => rfl
  | cons c cs ih =>
    have hih := ih (fun x hx => h x (List.mem_cons_of_mem c hx))
    rw [splitP_cons_eq hih, h c (List.mem_cons_self c cs)]
    simp

theorem splitP_cons_of_sep {p : Char → Bool} {d : Char} (hd : p d = true)
    (l : List Char) : splitP p (d :: l) = [] :: splitP p l := by
  obtain ⟨g, gs, hs⟩ := splitP_exists_cons p l
  rw [splitP_cons_eq hs, if_pos hd, hs]

theorem splitP_append_of_no_sep {p : Char → Bool} {t : List Char}
    (h : ∀ c ∈ t, p c = false) {l g : List Char} {gs : List (List Char)}
    (hl : splitP p l = g :: gs) : splitP p (t ++ l) = (t ++ g) :: gs := by
  induction t with
  | nil => simpa using hl
  | cons c cs ih =>
    have hih := ih (fun x hx => h x (List.mem_cons_of_mem c hx))
    rw [List.cons_append, splitP_cons_eq hih, h c (List.mem_cons_self c cs)]
    simp

theorem splitP_flatMap (p q : Char → Bool) (l : List Char) :
    (splitP p l).flatMap (splitP q) = splitP (fun c => p c || q c) l := by
  induction l with
  | nil => simp [splitP]
  | cons c cs ih =>
    obtain ⟨g, gs, hs⟩ := splitP_exists_cons p cs
    obtain ⟨g2, gs2, hs2⟩ := splitP_exists_cons (fun c => p c || q c) cs
    obtain ⟨g3, gs3, hs3⟩ := splitP_exists_cons q g
    rw [hs, hs2] at ih
    rw [splitP_cons_eq hs, splitP_cons_eq hs2]
    by_cases hp : p c = true
    · rw [if_pos hp, if_pos (show (p c || q c) = true by rw [hp]; rfl)]
      rw [List.flatMap_cons, ih, show splitP q [] = [[]] from rfl,
        List.singleton_append]
    · by_cases hq : q c = true
      · rw [if_neg hp, if_pos (show (p c || q c) = true by rw [hq]; simp)]
        rw [List.flatMap_cons, hs3] at ih
        rw [List.flatMap_cons, splitP_cons_eq hs3, if_pos hq, List.cons_append, ih]
      · rw [if_neg hp, if_neg (show ¬ (p c || q c) = true by simp_all)]
        rw [List.flatMap_cons, hs3, List.cons_append] at ih
        obtain ⟨he, ht⟩ := List.cons.inj ih
        rw [List.flatMap_cons, splitP_cons_eq hs3, if_neg hq, List.cons_append,
          he, ht]

/-- Membership in one of the five delimiters, as a single predicate: the
net effect of the cascading split. -/
def isDelim (c : Char) : Bool :=
  c == ',' || c == ';' || c == '|' || c == '\n' || c == '\t'

theorem splitValues_eq_splitP (l : List Char) :
    splitValues l = splitP isDelim (jsTrim l) := by
  have h1 : ∀ (t : List Char) (q : Char → Bool), [t].flatMap (splitP q) = splitP q t := by
    intro t q
    simp
  simp only [splitValues, delimiters, List.foldl, splitCh]
  rw [h1, splitP_flatMap, splitP_flatMap, splitP_flatMap, splitP_flatMap]
  rfl

example : extractDeviceKitIds (some "48656c6c6f2e343432") = [442] := by decide
example : extractDeviceKitIds (some "+4865") = [] := by decide
example : extractDeviceKitIds (some "612e35zz") = [5] := by decide
example : extractDeviceKitIds (some "48656c6c6f2e343432,612e37") = [442, 7] := by decide
example : extractDeviceKitIds none = [] := by decide
example : extractDeviceKitIds (some "") = [] := by decide
example : extractDeviceKitIds (some "7a") = [] := by decide

/-! ## Claim theorems: extractor basics -/

/-- C2: the claim says a token whose hex decoding is invalid is skipped
with no identifier.  The code does not do that: Node's lenient hex
decoder silently decodes the longest valid prefix, so the invalid-hex
token `612e35zz` decodes (via the prefix `612e35`, i.e. `a.5`) and the
Extractor produces the identifier 5 from it instead of skipping it; the
`try`/`catch` written to skip decode failures is unreachable. -/
theorem extract_invalid_hex_not_skipped :
    extractDeviceKitIds (some "612e35zz") = [5] := by decide

/-- C8: a token that, after trimming, begins with a literal `+` is
skipped by the per-token extraction routine — it contributes no
identifier, regardless of its remaining content. -/
theorem plus_token_skipped (s : List Char) (h : (jsTrim s).head? = some '+') :
    extractFromToken s = none := by
  simp only [extractFromToken]
  by_cases ht : jsTrim s = []
  · simp [ht]
  · simp [ht, h]

theorem plus_token_skipped_witness :
    (jsTrim "+4865".data).head? = some '+' ∧ extractFromToken "+4865".data = none :=
  ⟨by decide, plus_token_skipped "+4865".data (by decide)⟩

/-- C10: `extractDeviceKitIds` is total (it is a Lean function on all of
`Option String`, including `none` and `""`) and returns a list of
integers in which every element arises from a token whose parse
succeeded — the `isNaN` filter of the source means no `NaN` ever enters
the result, modelled here by every element being the `some`-value of
`extractFromToken` on some token. -/
theorem extract_total_no_nan (fv : Option String) (x : Int)
    (hx : x ∈ extractDeviceKitIds fv) :
    ∃ t ∈ tokensOf fv, extractFromToken t = some x := by
  cases fv with
  | none => simp [extractDeviceKitIds] at hx
  | some s =>
    by_cases hs : s = ""
    · simp [extractDeviceKitIds, hs] at hx
    · simp only [extractDeviceKitIds, if_neg hs] at hx
      simp only [tokensOf, if_neg hs]
      exact List.mem_filterMap.mp hx

theorem extract_total_no_nan_witness :
    (442 : Int) ∈ extractDeviceKitIds (some "48656c6c6f2e343432") ∧
      ∃ t ∈ tokensOf (some "48656c6c6f2e343432"), extractFromToken t = some 442 :=
  ⟨by decide, extract_total_no_nan (some "48656c6c6f2e343432") 442 (by decide)⟩


/-! ## Claim theorems: loader field mapping -/

/-- C3: the primary (procedural) code path copies the raw extension
source text verbatim into the record's `extensions` field and binds that
raw text as the `extensions` insert parameter — not the decoded integer
list — while the SQL variant's SELECT stores the decoded integer from
the CASE expression. -/
theorem raw_extensions_stored (row : CsvRow) (aid : Int)
    (fv em ph : Option String) (n : Int)
    (h : sqlExtensions fv = Except.ok (some n)) :
    (processRow row).extensions = row.extensions.getD "" ∧
      (jsInsertParams (processRow row)).2.2.2.1 = row.extensions.getD "" ∧
      sqlSelectRow aid fv em ph = Except.ok ⟨aid, some n, em, ph, "By system"⟩ :=
  ⟨rfl, rfl, by rw [sqlSelectRow, h]; rfl⟩

theorem raw_extensions_stored_witness :
    sqlExtensions (some "48656c6c6f2e343432") = Except.ok (some 442) ∧
      ((processRow ⟨some "1", none, none, some "48656c6c6f2e343432"⟩).extensions =
          (some "48656c6c6f2e343432").getD "" ∧
        (jsInsertParams (processRow ⟨some "1", none, none,
            some "48656c6c6f2e343432"⟩)).2.2.2.1 =
          (some "48656c6c6f2e343432").getD "" ∧
        sqlSelectRow 1 (some "48656c6c6f2e343432") none none =
          Except.ok ⟨1, some 442, none, none, "By system"⟩) :=
  ⟨rfl, raw_extensions_stored ⟨some "1", none, none, some "48656c6c6f2e343432"⟩
    1 (some "48656c6c6f2e343432") none none 442 rfl⟩

/-- C4 counterexample: the claim says a non-numeric account identifier
causes a fatal parse error for that record.  It does not: `parseInt`
yields `NaN` without throwing, and `loadCsvData` still constructs and
keeps the record (here with `account_id = NaN`, modelled `none`) — no
record-level parse error exists in this stage. -/
theorem nonnumeric_id_not_fatal :
    loadCsvData [⟨some "abc", some "a@b.com", some "123", some "7a"⟩] =
        [⟨none, "a@b.com", "123", "7a", "By system"⟩] ∧
      (processRow ⟨some "abc", some "a@b.com", some "123", some "7a"⟩).account_id =
        none := by
  constructor
  · rfl
  · rfl

/-- C4 amended: the account identifier is parsed with `parseInt`; a
non-numeric source value parses to `NaN` (`none`) and the record is
nevertheless included in the loaded batch with that `NaN` key — only a
later storage write can reject it. -/
theorem nonnumeric_id_loaded_with_nan (rows : List CsvRow) (row : CsvRow)
    (s : String) (h1 : row.account_id = some s)
    (h2 : jsParseInt s.data = none) (hmem : row ∈ rows) :
    (processRow row).account_id = none ∧ processRow row ∈ loadCsvData rows := by
  constructor
  · simp [processRow, h1, h2]
  · exact List.mem_map_of_mem processRow hmem

theorem nonnumeric_id_loaded_with_nan_witness :
    (⟨some "abc", none, none, none⟩ : CsvRow).account_id = some "abc" ∧
      jsParseInt "abc".data = none ∧
      (⟨some "abc", none, none, none⟩ : CsvRow) ∈
        [(⟨some "abc", none, none, none⟩ : CsvRow)] ∧
      ((processRow ⟨some "abc", none, none, none⟩).account_id = none ∧
        processRow ⟨some "abc", none, none, none⟩ ∈
          loadCsvData [⟨some "abc", none, none, none⟩]) :=
  ⟨rfl, by decide, by decide,
    nonnumeric_id_loaded_with_nan [⟨some "abc", none, none, none⟩]
      ⟨some "abc", none, none, none⟩ "abc" rfl (by decide) (by decide)⟩


/-! ## Upsert and load-mode lemmas -/

theorem upsert_of_mem {db : List TargetRow} {r : ProcessedRow} {now : Nat}
    (h : db.any (fun tr => tr.account_id = r.account_id) = true) :
    upsert db r now =
      db.map (fun tr =>
        if tr.account_id = r.account_id then targetRowOf r now else tr) := by
  rw [upsert, if_pos h]

theorem upsert_of_not_mem {db : List TargetRow} {r : ProcessedRow} {now : Nat}
    (h : db.any (fun tr => tr.account_id = r.account_id) = false) :
    upsert db r now = db ++ [targetRowOf r now] := by
  rw [upsert, if_neg (by rw [h]; simp)]

theorem upsert_fresh_of_forall {db : List TargetRow} {r : ProcessedRow} {now : Nat}
    (h : ∀ tr ∈ db, tr.account_id ≠ r.account_id) :
    upsert db r now = db ++ [targetRowOf r now] :=
  upsert_of_not_mem (by simp only [List.any_eq_false, decide_eq_true_eq]; exact h)

theorem countP_key_le_one {db : List TargetRow}
    (hwf : (db.map TargetRow.account_id).Nodup) (k : Option Int) :
    db.countP (fun tr => tr.account_id = k) ≤ 1 := by
  induction db with
  | nil => simp [List.countP_nil]
  | cons tr db ih =>
    rw [List.map_cons, List.nodup_cons] at hwf
    rw [List.countP_cons]
    by_cases hk : tr.account_id = k
    · have hz : db.countP (fun tr => tr.account_id = k) = 0 := by
        rw [List.countP_eq_zero]
        intro a ha
        simp only [decide_eq_true_eq]
        intro he
        exact hwf.1 (by rw [hk, ← he]; exact List.mem_map_of_mem _ ha)
      simp [hz, hk]
    · simp only [decide_eq_true_eq, if_neg hk]
      simpa using ih hwf.2

theorem upsert_countP_one {db : List TargetRow} {r : ProcessedRow} {now : Nat}
    (hwf : (db.map TargetRow.account_id).Nodup) :
    (upsert db r now).countP (fun tr => tr.account_id = r.account_id) = 1 := by
  cases hm : db.any (fun tr => tr.account_id = r.account_id) with
  | false =>
    rw [upsert_of_not_mem hm, List.countP_append]
    have hz : db.countP (fun tr => tr.account_id = r.account_id) = 0 := by
      rw [List.countP_eq_zero]
      intro a ha
      rw [List.any_eq_false] at hm
      simpa using hm a ha
    rw [hz]
    simp [List.countP_cons, targetRowOf]
  | true =>
    rw [upsert_of_mem hm, List.countP_map]
    have hcong :
        db.countP ((fun tr => decide (tr.account_id = r.account_id)) ∘
          (fun tr => if tr.account_id = r.account_id then targetRowOf r now else tr)) =
        db.countP (fun tr => tr.account_id = r.account_id) := by
      apply List.countP_congr
      intro tr _
      by_cases hk : tr.account_id = r.account_id
      · simp [hk, targetRowOf]
      · simp [hk]
    rw [hcong]
    have h1 : 0 < db.countP (fun tr => tr.account_id = r.account_id) := by
      rw [List.countP_pos_iff]
      rw [List.any_eq_true] at hm
      exact hm
    have h2 := countP_key_le_one hwf (r.account_id)
    omega

/-- C7: the upsert contract is idempotent per account identifier:
re-loading the same record overwrites all non-key fields and refreshes
the timestamp (the second upsert alone determines the outcome), exactly
one row with that key exists afterwards, every pre-existing key is
still present (no deletion), and the table grows by at most one row
(no duplication). -/
theorem upsert_idempotent (db : List TargetRow) (r : ProcessedRow) (t1 t2 : Nat)
    (hwf : (db.map TargetRow.account_id).Nodup) :
    upsert (upsert db r t1) r t2 = upsert db r t2 ∧
      (upsert (upsert db r t1) r t2).countP
        (fun tr => tr.account_id = r.account_id) = 1 ∧
      (∀ tr ∈ db, ∃ tr2 ∈ upsert db r t1, tr2.account_id = tr.account_id) ∧
      db.length ≤ (upsert db r t1).length ∧
      (upsert db r t1).length ≤ db.length + 1 := by
  have hdouble : upsert (upsert db r t1) r t2 = upsert db r t2 := by
    cases hm : db.any (fun tr => tr.account_id = r.account_id) with
    | true =>
      rw [upsert_of_mem hm]
      have hm2 : (db.map (fun tr =>
          if tr.account_id = r.account_id then targetRowOf r t1 else tr)).any
          (fun tr => tr.account_id = r.account_id) = true := by
        rw [List.any_eq_true] at hm ⊢
        obtain ⟨tr, htr, he⟩ := hm
        refine ⟨if tr.account_id = r.account_id then targetRowOf r t1 else tr,
          List.mem_map_of_mem _ htr, ?_⟩
        simp only [decide_eq_true_eq] at he
        rw [if_pos he]
        simp [targetRowOf]
      rw [upsert_of_mem hm2, upsert_of_mem hm, List.map_map]
      apply List.map_congr_left
      intro tr _
      by_cases hk : tr.account_id = r.account_id
      · simp [Function.comp, hk, targetRowOf]
      · simp [Function.comp, hk]
    | false =>
      rw [upsert_of_not_mem hm]
      have hm2 : (db ++ [targetRowOf r t1]).any
          (fun tr => tr.account_id = r.account_id) = true := by
        rw [List.any_append, hm]
        simp [targetRowOf]
      rw [upsert_of_mem hm2, upsert_of_not_mem hm, List.map_append]
      have hid : db.map (fun tr =>
          if tr.account_id = r.account_id then targetRowOf r t2 else tr) = db := by
        conv_rhs => rw [← List.map_id db]
        apply List.map_congr_left
        intro tr htr
        rw [List.any_eq_false] at hm
        have hne : ¬ (tr.account_id = r.account_id) := by simpa using hm tr htr
        rw [if_neg hne]
        rfl
      rw [hid]
      congr 1
      simp [targetRowOf]
  have hlen : (upsert db r t1).length = db.length ∨
      (upsert db r t1).length = db.length + 1 := by
    cases hm : db.any (fun tr => tr.account_id = r.account_id) with
    | true => exact Or.inl (by rw [upsert_of_mem hm, List.length_map])
    | false => exact Or.inr (by rw [upsert_of_not_mem hm, List.length_append]; rfl)
  refine ⟨hdouble, ?_, ?_, ?_, ?_⟩
  · rw [hdouble]
    exact upsert_countP_one hwf
  · intro tr htr
    cases hm : db.any (fun tr => tr.account_id = r.account_id) with
    | true =>
      rw [upsert_of_mem hm]
      refine ⟨if tr.account_id = r.account_id then targetRowOf r t1 else tr,
        List.mem_map_of_mem _ htr, ?_⟩
      by_cases hk : tr.account_id = r.account_id
      · rw [if_pos hk, hk]
        rfl
      · rw [if_neg hk]
    | false =>
      rw [upsert_of_not_mem hm]
      exact ⟨tr, List.mem_append_left _ htr, rfl⟩
  · rcases hlen with h | h <;> omega
  · rcases hlen with h | h <;> omega

theorem upsert_idempotent_witness :
    (([] : List TargetRow).map TargetRow.account_id).Nodup ∧
      (upsert (upsert [] ⟨some 1, "a", "b", "c", "By system"⟩ 0)
          ⟨some 1, "a", "b", "c", "By system"⟩ 1 =
        upsert [] ⟨some 1, "a", "b", "c", "By system"⟩ 1 ∧
      (upsert (upsert [] ⟨some 1, "a", "b", "c", "By system"⟩ 0)
          ⟨some 1, "a", "b", "c", "By system"⟩ 1).countP
        (fun tr => tr.account_id = (some 1 : Option Int)) = 1 ∧
      (∀ tr ∈ ([] : List TargetRow),
        ∃ tr2 ∈ upsert [] ⟨some 1, "a", "b", "c", "By system"⟩ 0,
          tr2.account_id = tr.account_id) ∧
      ([] : List TargetRow).length ≤
        (upsert [] ⟨some 1, "a", "b", "c", "By system"⟩ 0).length ∧
      (upsert [] ⟨some 1, "a", "b", "c", "By system"⟩ 0).length ≤
        ([] : List TargetRow).length + 1) :=
  ⟨by decide, upsert_idempotent [] ⟨some 1, "a", "b", "c", "By system"⟩ 0 1
    (by decide)⟩


theorem insertRun_counts (fails : ProcessedRow → Bool) (now : Nat) :
    ∀ (records : List ProcessedRow) (db : List TargetRow) (s e : Nat),
      (insertRun fails now (db, s, e) records).2.1 =
          s + records.countP (fun r => !fails r) ∧
        (insertRun fails now (db, s, e) records).2.2 = e + records.countP fails := by
  intro records
  induction records with
  | nil => intro db s e; simp [insertRun]
  | cons r rs ih =>
    intro db s e
    rw [insertRun]
    cases hf : fails r with
    | true =>
      rw [if_pos rfl]
      obtain ⟨h1, h2⟩ := ih db s (e + 1)
      refine ⟨?_, ?_⟩
      · rw [h1, List.countP_cons, hf]
        simp
      · rw [h2, List.countP_cons, hf]
        simp
        omega
    | false =>
      rw [if_neg (by simp)]
      obtain ⟨h1, h2⟩ := ih (upsert db r now) (s + 1) e
      refine ⟨?_, ?_⟩
      · rw [h1, List.countP_cons, hf]
        simp
        omega
      · rw [h2, List.countP_cons, hf]
        simp

theorem insertRun_db_length (fails : ProcessedRow → Bool) (now : Nat) :
    ∀ (records : List ProcessedRow) (db : List TargetRow) (s e : Nat),
      (records.map ProcessedRow.account_id).Nodup →
      (∀ r ∈ records, ∀ tr ∈ db, tr.account_id ≠ r.account_id) →
      (insertRun fails now (db, s, e) records).1.length =
        db.length + records.countP (fun r => !fails r) := by
  intro records
  induction records with
  | nil => intro db s e _ _; simp [insertRun]
  | cons r rs ih =>
    intro db s e hnd hfresh
    rw [List.map_cons, List.nodup_cons] at hnd
    rw [insertRun]
    cases hf : fails r with
    | true =>
      rw [if_pos rfl]
      rw [ih db s (e + 1) hnd.2
        (fun r2 h2 tr htr => hfresh r2 (List.mem_cons_of_mem r h2) tr htr)]
      rw [List.countP_cons, hf]
      simp
    | false =>
      rw [if_neg (by simp)]
      have hup : upsert db r now = db ++ [targetRowOf r now] :=
        upsert_fresh_of_forall (fun tr htr =>
          hfresh r (List.mem_cons_self r rs) tr htr)
      have hfresh2 : ∀ r2 ∈ rs, ∀ tr ∈ upsert db r now,
          tr.account_id ≠ r2.account_id := by
        intro r2 h2 tr htr
        rw [hup, List.mem_append] at htr
        rcases htr with htr | htr
        · exact hfresh r2 (List.mem_cons_of_mem r h2) tr htr
        · have heq : tr = targetRowOf r now := by simpa using htr
          rw [heq]
          show ¬ r.account_id = r2.account_id
          intro he
          exact hnd.1 (he ▸ List.mem_map_of_mem ProcessedRow.account_id h2)
      rw [ih (upsert db r now) (s + 1) e hnd.2 hfresh2, hup,
        List.length_append, List.countP_cons, hf]
      simp
      omega

/-- C5: per-row mode with exactly one failing record: the failure is
caught and counted, the remaining records are all processed, the
(single, committed) final state has N-1 rows when the N records carry
distinct keys and the table starts empty, and the run reports N-1
successes and 1 error.  Storage statement failures are modelled by the
oracle `fails` and treated as independent of each other, as the source's
control flow assumes. -/
theorem perrow_one_failure (records : List ProcessedRow)
    (fails : ProcessedRow → Bool) (now : Nat)
    (h1 : records.countP fails = 1)
    (h2 : (records.map ProcessedRow.account_id).Nodup) :
    (insertDataToDatabase fails [] records now).2.1 = records.length - 1 ∧
      (insertDataToDatabase fails [] records now).2.2 = 1 ∧
      (insertDataToDatabase fails [] records now).1.length =
        records.length - 1 := by
  have hc := insertRun_counts fails now records [] 0 0
  have hl := insertRun_db_length fails now records [] 0 0 h2
    (fun r _ tr htr => absurd htr (List.not_mem_nil tr))
  have hsum : records.length =
      records.countP fails + records.countP (fun r => !fails r) := by
    rw [List.length_eq_countP_add_countP (p := fails)]
    congr 1
    apply List.countP_congr
    intro r _
    cases hf : fails r <;> simp [hf]
  rw [insertDataToDatabase]
  refine ⟨?_, ?_, ?_⟩
  · rw [hc.1]
    omega
  · rw [hc.2, h1]
  · rw [hl]
    simp only [List.length_nil]
    omega

theorem perrow_one_failure_witness :
    ([⟨some 1, "", "", "", "By system"⟩,
        ⟨some 2, "", "", "", "By system"⟩] : List ProcessedRow).countP
      (fun r => r.account_id = (some 2 : Option Int)) = 1 ∧
    (([⟨some 1, "", "", "", "By system"⟩,
        ⟨some 2, "", "", "", "By system"⟩] : List ProcessedRow).map
      ProcessedRow.account_id).Nodup ∧
    ((insertDataToDatabase (fun r => r.account_id = (some 2 : Option Int)) []
        [⟨some 1, "", "", "", "By system"⟩, ⟨some 2, "", "", "", "By system"⟩]
        7).2.1 = 1 ∧
      (insertDataToDatabase (fun r => r.account_id = (some 2 : Option Int)) []
        [⟨some 1, "", "", "", "By system"⟩, ⟨some 2, "", "", "", "By system"⟩]
        7).2.2 = 1 ∧
      (insertDataToDatabase (fun r => r.account_id = (some 2 : Option Int)) []
        [⟨some 1, "", "", "", "By system"⟩, ⟨some 2, "", "", "", "By system"⟩]
        7).1.length = 1) :=
  ⟨by decide, by decide,
    perrow_one_failure
      [⟨some 1, "", "", "", "By system"⟩, ⟨some 2, "", "", "", "By system"⟩]
      (fun r => r.account_id = (some 2 : Option Int)) 7 (by decide) (by decide)⟩

/-- C6: batch mode is all-or-nothing: if any record's write fails, the
single multi-row statement errors, the transaction is rolled back, the
storage contents are exactly the prior contents (zero rows from the
batch), and the failure surfaces as a fatal error. -/
theorem batch_all_or_nothing (records : List ProcessedRow)
    (fails : ProcessedRow → Bool) (db0 : List TargetRow) (now : Nat)
    (h : ∃ r ∈ records, fails r = true) :
    batchInsertDataToDatabase fails db0 records now = Except.error () ∧
      batchFinalDb fails db0 records now = db0 := by
  have hany : records.any fails = true := by
    rw [List.any_eq_true]
    obtain ⟨r, hr, hf⟩ := h
    exact ⟨r, hr, hf⟩
  constructor
  · rw [batchInsertDataToDatabase, if_pos hany]
  · rw [batchFinalDb, batchInsertDataToDatabase, if_pos hany]

theorem batch_all_or_nothing_witness :
    (∃ r ∈ ([⟨some 1, "", "", "", "By system"⟩,
        ⟨some 2, "", "", "", "By system"⟩] : List ProcessedRow),
      (fun r => r.account_id = (some 2 : Option Int)) r = true) ∧
    (batchInsertDataToDatabase (fun r => r.account_id = (some 2 : Option Int))
        [] [⟨some 1, "", "", "", "By system"⟩, ⟨some 2, "", "", "", "By system"⟩]
        7 = Except.error () ∧
      batchFinalDb (fun r => r.account_id = (some 2 : Option Int))
        [] [⟨some 1, "", "", "", "By system"⟩, ⟨some 2, "", "", "", "By system"⟩]
        7 = []) :=
  ⟨by decide,
    batch_all_or_nothing
      [⟨some 1, "", "", "", "By system"⟩, ⟨some 2, "", "", "", "By system"⟩]
      (fun r => r.account_id = (some 2 : Option Int)) [] 7 (by decide)⟩


/-! ## Multi-token fields (C9) -/

/-- A feature value assembled from a first token and further tokens each
preceded by one delimiter character (an arbitrary mixture). -/
def joinMix (t0 : List Char) (rest : List (Char × List Char)) : List Char :=
  t0 ++ rest.flatMap (fun q => q.1 :: q.2)

theorem joinMix_nil (t0 : List Char) : joinMix t0 [] = t0 := by
  simp [joinMix]

theorem joinMix_cons (t0 : List Char) (q : Char × List Char)
    (rest : List (Char × List Char)) :
    joinMix t0 (q :: rest) = t0 ++ q.1 :: joinMix q.2 rest := by
  simp [joinMix]

theorem isDelim_eq_false_of_hex {c : Char} (h : (hexVal c).isSome = true) :
    isDelim c = false := by
  simp only [isDelim, Bool.or_eq_false_iff, beq_eq_false_iff_ne]
  exact ⟨⟨⟨⟨hex_ne_of_isSome h rfl, hex_ne_of_isSome h rfl⟩,
    hex_ne_of_isSome h rfl⟩, hex_ne_of_isSome h rfl⟩, hex_ne_of_isSome h rfl⟩

theorem isDelim_of_mem_delimiters {d : Char} (h : d ∈ delimiters) :
    isDelim d = true := by
  simp only [delimiters, List.mem_cons, List.not_mem_nil, or_false] at h
  rcases h with h | h | h | h | h <;> rw [h] <;> rfl

theorem joinMix_getLast?_mem (rest : List (Char × List Char)) :
    ∀ (t0 : List Char), t0 ≠ [] → (∀ q ∈ rest, q.2 ≠ []) →
      ∃ c, (joinMix t0 rest).getLast? = some c ∧
        (c ∈ t0 ∨ ∃ q ∈ rest, c ∈ q.2) := by
  induction rest with
  | nil =>
    intro t0 h0 _
    refine ⟨t0.getLast h0, ?_, Or.inl (List.getLast_mem h0)⟩
    rw [joinMix_nil]
    exact List.getLast?_eq_getLast t0 h0
  | cons q rest ih =>
    intro t0 h0 hr
    obtain ⟨c, hc, hmem⟩ := ih q.2 (hr q (List.mem_cons_self q rest))
      (fun q2 h2 => hr q2 (List.mem_cons_of_mem q h2))
    refine ⟨c, ?_, ?_⟩
    · rw [joinMix_cons, List.getLast?_append_of_ne_nil _ (by simp)]
      obtain ⟨b, J, hJ⟩ := List.exists_cons_of_ne_nil
        (show joinMix q.2 rest ≠ [] by
          rw [joinMix]
          intro he
          exact hr q (List.mem_cons_self q rest)
            (List.append_eq_nil.mp he).1)
      rw [hJ, List.getLast?_cons_cons, ← hJ, hc]
    · rcases hmem with hmem | ⟨q2, h2, hmem⟩
      · exact Or.inr ⟨q, List.mem_cons_self q rest, hmem⟩
      · exact Or.inr ⟨q2, List.mem_cons_of_mem q h2, hmem⟩

theorem joinMix_head?_mem (t0 : List Char) (rest : List (Char × List Char))
    (h0 : t0 ≠ []) :
    ∃ c, (joinMix t0 rest).head? = some c ∧ c ∈ t0 := by
  obtain ⟨b, t, ht⟩ := List.exists_cons_of_ne_nil h0
  refine ⟨b, ?_, by rw [ht]; exact List.mem_cons_self b t⟩
  rw [joinMix, ht]
  rfl

theorem splitP_joinMix {p : Char → Bool} (rest : List (Char × List Char)) :
    ∀ (t0 : List Char), (∀ c ∈ t0, p c = false) →
      (∀ q ∈ rest, p q.1 = true ∧ ∀ c ∈ q.2, p c = false) →
      splitP p (joinMix t0 rest) = t0 :: rest.map Prod.snd := by
  induction rest with
  | nil =>
    intro t0 h0 _
    rw [joinMix_nil, List.map_nil]
    exact splitP_eq_single h0
  | cons q rest ih =>
    intro t0 h0 hr
    have hq := hr q (List.mem_cons_self q rest)
    have hJ : splitP p (joinMix q.2 rest) = q.2 :: rest.map Prod.snd :=
      ih q.2 hq.2 (fun q2 h2 => hr q2 (List.mem_cons_of_mem q h2))
    have hsep : splitP p (q.1 :: joinMix q.2 rest) =
        [] :: q.2 :: rest.map Prod.snd := by
      rw [splitP_cons_of_sep hq.1, hJ]
    rw [joinMix_cons, splitP_append_of_no_sep h0 hsep, List.map_cons,
      List.append_nil]

theorem filterMap_eq_map_of_some {α β : Type} (f : α → Option β) (g : α → β) :
    ∀ l : List α, (∀ x ∈ l, f x = some (g x)) → l.filterMap f = l.map g
  | [], _ => rfl
  | x :: xs, h => by
    rw [List.filterMap_cons_some (h x (List.mem_cons_self x xs)), List.map_cons,
      filterMap_eq_map_of_some f g xs
        (fun y hy => h y (List.mem_cons_of_mem x hy))]

/-- C9: a field consisting of valid hex tokens joined by an arbitrary
mixture of the five delimiters is cascade-split into exactly those
tokens, in order, and the Extractor returns exactly one integer per
token, in original order, duplicates preserved (the result is the map of
the per-token values); an absent (`null`/`undefined`) or empty field
produces an empty result. -/
theorem multi_token_extraction (t0 : List Char)
    (rest : List (Char × List Char × Int)) (v0 : Int)
    (h0 : t0 ≠ [] ∧ ∀ c ∈ t0, (hexVal c).isSome = true)
    (hr : ∀ q ∈ rest, q.1 ∈ delimiters ∧ q.2.1 ≠ [] ∧
      ∀ c ∈ q.2.1, (hexVal c).isSome = true)
    (hv0 : extractFromToken t0 = some v0)
    (hv : ∀ q ∈ rest, extractFromToken q.2.1 = some q.2.2) :
    extractDeviceKitIds none = [] ∧ extractDeviceKitIds (some "") = [] ∧
      extractDeviceKitIds (some (String.mk
          (joinMix t0 (rest.map (fun q => (q.1, q.2.1)))))) =
        v0 :: rest.map (fun q => q.2.2) := by
  refine ⟨rfl, rfl, ?_⟩
  set rest2 : List (Char × List Char) := rest.map (fun q => (q.1, q.2.1)) with hrest2
  have hr2 : ∀ q ∈ rest2, q.1 ∈ delimiters ∧ q.2 ≠ [] ∧
      ∀ c ∈ q.2, (hexVal c).isSome = true := by
    intro q hq
    rw [hrest2, List.mem_map] at hq
    obtain ⟨q0, hq0, he⟩ := hq
    rw [← he]
    exact hr q0 hq0
  have hJne : joinMix t0 rest2 ≠ [] := by
    rw [joinMix]
    intro he
    exact h0.1 (List.append_eq_nil.mp he).1
  have hsne : String.mk (joinMix t0 rest2) ≠ "" := by
    intro he
    rw [String.ext_iff] at he
    exact hJne he
  have hdata : (String.mk (joinMix t0 rest2)).data = joinMix t0 rest2 := rfl
  -- the whole joined field is unchanged by the outer trim: its first and
  -- last characters are hex digits of tokens
  have htrim : jsTrim (joinMix t0 rest2) = joinMix t0 rest2 := by
    obtain ⟨c, hc, hcm⟩ := joinMix_head?_mem t0 rest2 h0.1
    obtain ⟨c2, hc2, hcm2⟩ := joinMix_getLast?_mem rest2 t0 h0.1
      (fun q hq => (hr2 q hq).2.1)
    refine jsTrim_eq_self_of_ends hc ?_ hc2 ?_
    · exact jsWs_eq_false_of_hex (h0.2 c hcm)
    · rcases hcm2 with hcm2 | ⟨q, hq, hcm2⟩
      · exact jsWs_eq_false_of_hex (h0.2 c2 hcm2)
      · exact jsWs_eq_false_of_hex ((hr2 q hq).2.2 c2 hcm2)
  have hsplit : splitP isDelim (joinMix t0 rest2) = t0 :: rest2.map Prod.snd := by
    refine splitP_joinMix rest2 t0 (fun c hc => isDelim_eq_false_of_hex (h0.2 c hc)) ?_
    intro q hq
    exact ⟨isDelim_of_mem_delimiters (hr2 q hq).1,
      fun c hc => isDelim_eq_false_of_hex ((hr2 q hq).2.2 c hc)⟩
  rw [extractDeviceKitIds, if_neg hsne, hdata, splitValues_eq_splitP, htrim,
    hsplit, List.filterMap_cons_some hv0]
  rw [hrest2, List.map_map, List.filterMap_map]
  rw [filterMap_eq_map_of_some _ (fun q => q.2.2) rest]
  intro q hq
  exact hv q hq

theorem multi_token_extraction_witness :
    (("48656c6c6f2e343432".data ≠ [] ∧
        ∀ c ∈ "48656c6c6f2e343432".data, (hexVal c).isSome = true) ∧
      (∀ q ∈ [(',', "48656c6c6f2e343432".data, (442 : Int)),
          (';', "612e37".data, (7 : Int))],
        q.1 ∈ delimiters ∧ q.2.1 ≠ [] ∧
          ∀ c ∈ q.2.1, (hexVal c).isSome = true) ∧
      extractFromToken "48656c6c6f2e343432".data = some 442 ∧
      (∀ q ∈ [(',', "48656c6c6f2e343432".data, (442 : Int)),
          (';', "612e37".data, (7 : Int))],
        extractFromToken q.2.1 = some q.2.2)) ∧
    (extractDeviceKitIds none = [] ∧ extractDeviceKitIds (some "") = [] ∧
      extractDeviceKitIds (some (String.mk (joinMix "48656c6c6f2e343432".data
          ([(',', "48656c6c6f2e343432".data, (442 : Int)),
            (';', "612e37".data, (7 : Int))].map (fun q => (q.1, q.2.1)))))) =
        442 :: [(',', "48656c6c6f2e343432".data, (442 : Int)),
          (';', "612e37".data, (7 : Int))].map (fun q => q.2.2)) :=
  ⟨⟨by decide, by decide, by decide, by decide⟩,
    multi_token_extraction "48656c6c6f2e343432".data
      [(',', "48656c6c6f2e343432".data, (442 : Int)),
        (';', "612e37".data, (7 : Int))] 442
      (by decide) (by decide) (by decide) (by decide)⟩


/-! ## Procedural vs declarative extraction (C1) -/

theorem except_ok_bind {α β : Type} (a : α) (f : α → Except Unit β) :
    (Except.ok a >>= f) = f a := rfl

theorem jsParseInt_all_digits {l : List Char} (hne : l ≠ [])
    (hd : ∀ c ∈ l, (digitVal c).isSome = true) :
    jsParseInt l = some ((digitsValGo 10 digitVal 0 l : Nat) : Int) := by
  obtain ⟨c, cs, rfl⟩ := List.exists_cons_of_ne_nil hne
  have hc := hd c (List.mem_cons_self c cs)
  have hws : jsWs c = false := jsWs_eq_false_of_hex (hexVal_isSome_of_digit hc)
  have hdrop : (c :: cs).dropWhile jsWs = c :: cs :=
    dropWhile_eq_self_of_head rfl hws
  have hminus : c ≠ '-' := digit_ne_of_isSome hc rfl
  have hplus : c ≠ '+' := digit_ne_of_isSome hc rfl
  obtain ⟨d, hd'⟩ := Option.isSome_iff_exists.mp hc
  have hm : ¬ (c :: cs).head? = some '-' := by
    rw [List.head?_cons]
    intro he
    exact hminus (Option.some.inj he)
  have hmp : ¬ ((c :: cs).head? = some '-' ∨ (c :: cs).head? = some '+') := by
    rw [List.head?_cons]
    rintro (he | he)
    · exact hminus (Option.some.inj he)
    · exact hplus (Option.some.inj he)
  simp only [jsParseInt, hdrop]
  rw [if_neg hm, if_neg hmp]
  have hxcond : ¬ ((c :: cs).head? = some '0' ∧
      ((c :: cs).tail.head? = some 'x' ∨ (c :: cs).tail.head? = some 'X')) := by
    rintro ⟨-, hx | hx⟩
    · rw [List.tail_cons] at hx
      have hmem : 'x' ∈ cs := List.mem_of_mem_head? (by rw [hx]; rfl)
      exact absurd (hd 'x' (List.mem_cons_of_mem c hmem)) (by decide)
    · rw [List.tail_cons] at hx
      have hmem : 'X' ∈ cs := List.mem_of_mem_head? (by rw [hx]; rfl)
      exact absurd (hd 'X' (List.mem_cons_of_mem c hmem)) (by decide)
  rw [if_neg hxcond]
  simp [parseRadix, hd', digitsValGo]

theorem sqlCastInt_all_digits {l : List Char} (hne : l ≠ [])
    (hd : ∀ c ∈ l, (digitVal c).isSome = true)
    (hrange : ((digitsValGo 10 digitVal 0 l : Nat) : Int) < 2 ^ 31) :
    sqlCastInt l = Except.ok ((digitsValGo 10 digitVal 0 l : Nat) : Int) := by
  obtain ⟨c, cs, rfl⟩ := List.exists_cons_of_ne_nil hne
  have hc := hd c (List.mem_cons_self c cs)
  have hws : sqlIntWs c = false := sqlIntWs_eq_false_of_digit hc
  have hdrop : (c :: cs).dropWhile sqlIntWs = c :: cs :=
    dropWhile_eq_self_of_head rfl hws
  have hminus : c ≠ '-' := digit_ne_of_isSome hc rfl
  have hplus : c ≠ '+' := digit_ne_of_isSome hc rfl
  have htake : (c :: cs).takeWhile (fun x => (digitVal x).isSome) = c :: cs :=
    List.takeWhile_eq_self_iff.mpr hd
  have hdropd : (c :: cs).dropWhile (fun x => (digitVal x).isSome) = [] :=
    List.dropWhile_eq_nil_iff.mpr hd
  have hm : ¬ (c :: cs).head? = some '-' := by
    rw [List.head?_cons]
    intro he
    exact hminus (Option.some.inj he)
  have hmp : ¬ ((c :: cs).head? = some '-' ∨ (c :: cs).head? = some '+') := by
    rw [List.head?_cons]
    rintro (he | he)
    · exact hminus (Option.some.inj he)
    · exact hplus (Option.some.inj he)
  simp only [sqlCastInt, hdrop]
  rw [if_neg hm, if_neg hmp]
  rw [htake, hdropd]
  rw [if_neg (List.cons_ne_nil c cs)]
  rw [if_neg (by simp)]
  rw [one_mul]
  rw [if_pos ⟨le_trans (by norm_num) (Int.natCast_nonneg _), by omega⟩]

theorem sqlHexPairs_eq_node : ∀ (l : List Char),
    (∀ c ∈ l, (hexVal c).isSome = true) → l.length % 2 = 0 →
    sqlHexPairs l = Except.ok (nodeHexDecode l)
  | [], _, _ => rfl
  | [c], _, he => by simp at he
  | c1 :: c2 :: rest, hh, he => by
    obtain ⟨a, ha⟩ := Option.isSome_iff_exists.mp (hh c1 (by simp))
    obtain ⟨b, hb⟩ := Option.isSome_iff_exists.mp (hh c2 (by simp))
    have hr : sqlHexPairs rest = Except.ok (nodeHexDecode rest) :=
      sqlHexPairs_eq_node rest (fun c hc => hh c (by simp [hc]))
        (by
        simp only [List.length_cons] at he
        omega)
    rw [sqlHexPairs, nodeHexDecode, ha, hb, hr]

/-- C1 counterexample: the procedural Extractor and the SQL decode rule
do not agree on every input.  On the single hex token `7a` (which
decodes to `z`, with no second `.`-field) the Extractor quietly skips
the token and returns no identifier, while the SQL expression raises an
error (the cast of the empty string), so the two disagree both on the
output and on which tokens are skipped. -/
theorem extract_sql_disagree :
    extractDeviceKitIds (some "7a") = [] ∧
      sqlExtensions (some "7a") = Except.error () ∧
      sqlExtensions (some "7a") ≠
        Except.ok ((extractDeviceKitIds (some "7a")).head?) := by
  refine ⟨by decide, rfl, fun h => ?_⟩
  rw [show sqlExtensions (some "7a") = Except.error () from rfl] at h
  exact Except.noConfusion h

/-- C1 amended: on a well-formed single-token input — an even-length
string of hex digits whose bytes are valid NUL-free UTF-8 and whose
decoded text has a second `.`-field consisting of decimal digits with
value below 2^31 — the procedural Extractor and the SQL decode rule
agree: the Extractor returns exactly that one integer and the SQL
expression returns the same integer.  (Outside this domain they can
disagree: lenient vs strict hex decoding, delimiter splitting, trimming,
`parseInt` prefix parsing vs strict integer cast.) -/
theorem extract_matches_sql_single_token (s : String)
    (hne : s.data ≠ [])
    (hhex : ∀ c ∈ s.data, (hexVal c).isSome = true)
    (heven : s.data.length % 2 = 0)
    (hvalid : utf8Valid (nodeHexDecode s.data) = true)
    (hnul : ∀ b ∈ nodeHexDecode s.data, b ≠ 0)
    (p0 p1 : List Char) (ps : List (List Char))
    (hsplit : splitCh '.' (utf8Decode (nodeHexDecode s.data)) = p0 :: p1 :: ps)
    (hp1ne : p1 ≠ [])
    (hp1dig : ∀ c ∈ p1, (digitVal c).isSome = true)
    (hrange : ((digitsValGo 10 digitVal 0 p1 : Nat) : Int) < 2 ^ 31) :
    extractDeviceKitIds (some s) =
        [((digitsValGo 10 digitVal 0 p1 : Nat) : Int)] ∧
      sqlExtensions (some s) =
        Except.ok (some ((digitsValGo 10 digitVal 0 p1 : Nat) : Int)) := by
  obtain ⟨c, cs, hcons⟩ := List.exists_cons_of_ne_nil hne
  have hchex : (hexVal c).isSome = true :=
    hhex c (by rw [hcons]; exact List.mem_cons_self c cs)
  have hplus : c ≠ '+' := hex_ne_of_isSome hchex rfl
  have hsne : s ≠ "" := by
    intro he
    exact hne (by rw [he])
  have htrim : jsTrim s.data = s.data :=
    jsTrim_eq_self_of_forall (fun x hx => jsWs_eq_false_of_hex (hhex x hx))
  have hheadp : ¬ s.data.head? = some '+' := by
    rw [hcons, List.head?_cons]
    intro he
    exact hplus (Option.some.inj he)
  have htok : extractFromToken s.data =
      some ((digitsValGo 10 digitVal 0 p1 : Nat) : Int) := by
    simp only [extractFromToken, htrim]
    rw [if_neg hne, if_neg hheadp, hsplit]
    exact jsParseInt_all_digits hp1ne hp1dig
  constructor
  · rw [extractDeviceKitIds, if_neg hsne, splitValues_eq_splitP, htrim,
      splitP_eq_single (fun x hx => isDelim_eq_false_of_hex (hhex x hx)),
      List.filterMap_cons_some htok, List.filterMap_nil]
  · have hfil : s.data.filter (fun x => !sqlHexWs x) = s.data :=
      List.filter_eq_self.mpr (fun x hx => by
        rw [sqlHexWs_eq_false_of_hex (hhex x hx)]
        rfl)
    have hpairs : sqlHexDecode s.data = Except.ok (nodeHexDecode s.data) := by
      rw [sqlHexDecode, hfil]
      exact sqlHexPairs_eq_node s.data hhex heven
    have hconv : sqlConvertFrom (nodeHexDecode s.data) =
        Except.ok (utf8Decode (nodeHexDecode s.data)) := by
      rw [sqlConvertFrom, if_pos ⟨hvalid, hnul⟩]
    have hpart : sqlSplitPart (utf8Decode (nodeHexDecode s.data)) '.' 2 = p1 := by
      rw [sqlSplitPart, hsplit]
      rfl
    have hcast : sqlCastInt p1 =
        Except.ok ((digitsValGo 10 digitVal 0 p1 : Nat) : Int) :=
      sqlCastInt_all_digits hp1ne hp1dig hrange
    simp only [sqlExtensions]
    rw [if_neg hsne, if_neg hheadp]
    rw [hpairs, except_ok_bind, hconv, except_ok_bind, hpart, hcast,
      except_ok_bind]
    rfl


theorem extract_matches_sql_single_token_witness :
    ("48656c6c6f2e343432".data ≠ [] ∧
      (∀ c ∈ "48656c6c6f2e343432".data, (hexVal c).isSome = true) ∧
      "48656c6c6f2e343432".data.length % 2 = 0 ∧
      utf8Valid (nodeHexDecode "48656c6c6f2e343432".data) = true ∧
      (∀ b ∈ nodeHexDecode "48656c6c6f2e343432".data, b ≠ 0) ∧
      splitCh '.' (utf8Decode (nodeHexDecode "48656c6c6f2e343432".data)) =
        "Hello".data :: "442".data :: [] ∧
      "442".data ≠ [] ∧
      (∀ c ∈ "442".data, (digitVal c).isSome = true) ∧
      ((digitsValGo 10 digitVal 0 "442".data : Nat) : Int) < 2 ^ 31) ∧
    (extractDeviceKitIds (some "48656c6c6f2e343432") =
        [((digitsValGo 10 digitVal 0 "442".data : Nat) : Int)] ∧
      sqlExtensions (some "48656c6c6f2e343432") =
        Except.ok (some ((digitsValGo 10 digitVal 0 "442".data : Nat) : Int))) :=
  ⟨⟨by decide, by decide, by decide, by decide, by decide, by decide, by decide,
    by decide, by decide⟩,
    extract_matches_sql_single_token "48656c6c6f2e343432" (by decide) (by decide)
      (by decide) (by decide) (by decide) "Hello".data "442".data [] (by decide)
      (by decide) (by decide) (by decide)⟩

end MoveAccounts
